import Mathlib

/-!
Shallow embedding of the two programs of this repository:
bot.py (Ichimoku multi-timeframe alert bot) and muboh_bot.py
(Telegram group verdict bot).  Python floats are modelled as exact
rationals, Python dicts as association lists, and Python strings as
lists of characters (ASCII fragment).
-/

namespace Bot

/-- Candle record as parsed from a kline row (bot.py, class Candle).
THE field named open in Python is named open_ here, open being a Lean
keyword. -/
structure Candle where
  open_time : Nat
  open_ : ℚ
  high : ℚ
  low : ℚ
  close : ℚ
  volume : ℚ
  close_time : Nat
deriving DecidableEq, Repr, Inhabited

/-- Setup cycle identifier: models the Python format string joining the
symbol and the 1D open time (bot.py line 267); for a fixed symbol that
string determines and is determined by the open time, so the pair is an
exact model. -/
structure SetupId where
  symbol : String
  openTime : Nat
deriving DecidableEq, Repr

/-- Per-symbol state dictionary created by sym_state (bot.py lines 69-90);
only the fields read or written by handle_signals are modelled. -/
structure SymState where
  armed_1d : Option SetupId
  buy_done_4h : Option SetupId
  sell_done_15m : Option SetupId
  in_position : Bool
  setup_id : Option SetupId
deriving DecidableEq, Repr

/-- Result dictionary of ichimoku_lines (bot.py lines 204-212). -/
structure Ichi where
  tenkan : ℚ
  kijun : ℚ
  senkou_a : ℚ
  senkou_b : ℚ
  cloud_top : ℚ
  cloud_bottom : ℚ
  chikou_ok : Bool
deriving DecidableEq, Repr

/-- Python builtin max over a list; the empty case is unreachable at every
use site (guarded by the length check in ichimoku_lines). -/
def listMax : List ℚ → ℚ
  | [] => 0
  | x :: xs => xs.foldl max x

/-- Python builtin min over a list; empty case unreachable as for listMax. -/
def listMin : List ℚ → ℚ
  | [] => 0
  | x :: xs => xs.foldl min x

/-- Python slice l[-n:], the most recent n elements of an oldest-to-newest
list. -/
def lastN {α : Type} (n : Nat) (l : List α) : List α := l.drop (l.length - n)

/-- midpoint of bot.py lines 166-167. -/
def midpoint (highs lows : List ℚ) : ℚ := (listMax highs + listMin lows) / 2

/-- ichimoku_lines of bot.py lines 169-212: absent below 80 closed candles,
otherwise the midpoint lines over the most recent 9, 26 and 52 candles
plus the lagging chikou confirmation. -/
def ichimoku_lines (closed : List Candle) : Option Ichi :=
  if closed.length < 80 then none
  else
    let highs := closed.map Candle.high
    let lows := closed.map Candle.low
    let closes := closed.map Candle.close
    let tenkan := midpoint (lastN 9 highs) (lastN 9 lows)
    let kijun := midpoint (lastN 26 highs) (lastN 26 lows)
    let senkou_a := (tenkan + kijun) / 2
    let senkou_b := midpoint (lastN 52 highs) (lastN 52 lows)
    let cloud_top := max senkou_a senkou_b
    let cloud_bottom := min senkou_a senkou_b
    let chikou_ok :=
      if 27 ≤ closes.length then
        decide (closes.getLastD 0 > closes.getD (closes.length - 27) 0)
      else false
    some ⟨tenkan, kijun, senkou_a, senkou_b, cloud_top, cloud_bottom, chikou_ok⟩

/-- last_closed of bot.py lines 158-161; the Python ValueError raised on a
list shorter than 2 is modelled as none. -/
def last_closed (candles : List Candle) : Option Candle :=
  if candles.length < 2 then none
  else some (candles.getD (candles.length - 2) default)

/-- Cache entry for one symbol and timeframe as stored by refresh_tf_cache
(bot.py lines 231-238).  An entry missing from the cache dict behaves in
handle_signals exactly like an entry with an absent snapshot, so it is
modelled that way. -/
structure TfCache where
  closed : List Candle
  ichi : Option Ichi
deriving DecidableEq, Repr

/-- Per-timeframe body of refresh_tf_cache (bot.py lines 231-238): the
freshly fetched candles lose their forming last element, and the snapshot
is stored as absent when fewer than 80 closed candles remain. -/
def refresh_tf_entry (candles : List Candle) : TfCache :=
  let closed := candles.dropLast
  if closed.length < 80 then ⟨closed, none⟩
  else ⟨closed, ichimoku_lines closed⟩

/-- Snapshot of the three timeframe cache entries read by one
handle_signals tick. -/
structure Tick where
  tf1 : TfCache
  tf4 : TfCache
  tf15 : TfCache
deriving DecidableEq, Repr

/-- Alert messages sent by handle_signals, by kind. -/
inductive AlertKind where
  | arm | buy | sell
deriving DecidableEq, Repr

/-- ARM guard of bot.py lines 269-279: 1D bullish structure with the last
closed daily candle near (but below) the cloud top. -/
def bullish_1d_near (near : ℚ) (i1 : Ichi) (last1 : Candle) : Prop :=
  i1.tenkan > i1.kijun ∧ i1.senkou_a > i1.senkou_b ∧ i1.chikou_ok = true ∧
    last1.close ≥ i1.cloud_top * (1 - near) ∧ last1.close < i1.cloud_top

instance (near : ℚ) (i1 : Ichi) (last1 : Candle) :
    Decidable (bullish_1d_near near i1 last1) := by
  unfold bullish_1d_near; infer_instance

/-- Default candle used for the closed-list read closed[-1] on an empty
list; unreachable behind a present snapshot, which refresh_tf_cache only
stores for lists of length at least 80. -/
def dCandle : Candle := ⟨0, 0, 0, 0, 0, 0, 0⟩

/-- 1D ARM stage of handle_signals (bot.py lines 262-296). -/
def armStep (near : ℚ) (symbol : String) (s : SymState) (t : Tick) :
    SymState × Bool :=
  match t.tf1.ichi with
  | none => (s, false)
  | some i1 =>
    let last1 := t.tf1.closed.getLastD dCandle
    let sid : SetupId := ⟨symbol, last1.open_time⟩
    if bullish_1d_near near i1 last1 ∧ s.setup_id ≠ some sid ∧ s.in_position = false then
      ({ s with setup_id := some sid, armed_1d := some sid,
                buy_done_4h := none, sell_done_15m := none }, true)
    else (s, false)

/-- 4H BUY stage of handle_signals (bot.py lines 298-323). -/
def buyStep (s : SymState) (t : Tick) : SymState × Bool :=
  match t.tf4.ichi with
  | none => (s, false)
  | some i4 =>
    let last4 := t.tf4.closed.getLastD dCandle
    let armed := s.armed_1d = s.setup_id ∧ s.setup_id ≠ none
    if (armed ∧ i4.tenkan > i4.kijun ∧ last4.close > i4.cloud_top) ∧
        s.in_position = false then
      if s.buy_done_4h ≠ s.setup_id then
        ({ s with buy_done_4h := s.setup_id, in_position := true }, true)
      else (s, false)
    else (s, false)

/-- 15m SELL stage of handle_signals (bot.py lines 325-349). -/
def sellStep (s : SymState) (t : Tick) : SymState × Bool :=
  match t.tf15.ichi with
  | none => (s, false)
  | some i15 =>
    let last15 := t.tf15.closed.getLastD dCandle
    if s.in_position = true then
      if i15.tenkan < i15.kijun ∨ last15.close < i15.kijun then
        if s.sell_done_15m ≠ s.setup_id then
          ({ s with sell_done_15m := s.setup_id, in_position := false }, true)
        else (s, false)
      else (s, false)
    else (s, false)

/-- handle_signals (bot.py lines 249-349) as a pure transition: the tick is
a no-op when any timeframe snapshot is absent; otherwise the three stages
run in order, each possibly emitting its alert. -/
def handle_signals (near : ℚ) (symbol : String) (s : SymState) (t : Tick) :
    SymState × List AlertKind :=
  match t.tf1.ichi, t.tf4.ichi, t.tf15.ichi with
  | some _, some _, some _ =>
    let a := armStep near symbol s t
    let b := buyStep a.1 t
    let c := sellStep b.1 t
    (c.1, (if a.2 then [AlertKind.arm] else [])
      ++ (if b.2 then [AlertKind.buy] else [])
      ++ (if c.2 then [AlertKind.sell] else []))
  | _, _, _ => (s, [])

/-- Post-states of a sequence of handle_signals ticks for one symbol. -/
def traceStates (near : ℚ) (symbol : String) (s : SymState) :
    List Tick → List SymState
  | [] => []
  | t :: ts =>
    (handle_signals near symbol s t).1 ::
      traceStates near symbol (handle_signals near symbol s t).1 ts

/-- Number of alerts of one kind emitted along a sequence of ticks. -/
def traceCount (near : ℚ) (symbol : String) (k : AlertKind) (s : SymState) :
    List Tick → Nat
  | [] => 0
  | t :: ts =>
    (handle_signals near symbol s t).2.count k
      + traceCount near symbol k (handle_signals near symbol s t).1 ts

/-- Percentage-change field of a 24h ticker entry, as read by
get_top_gainers (bot.py line 123): the Python expression defaults a
missing or empty field to the text "0" and raises (skipping the entry)
when the text does not parse as a number. -/
inductive PctField where
  | missing
  | emptyText
  | unparseable
  | num (q : ℚ)
deriving DecidableEq, Repr

/-- Value of the Python float conversion with its surrounding defaults;
none models the ValueError that makes get_top_gainers skip the entry. -/
def parsePct : PctField → Option ℚ
  | .missing => some 0
  | .emptyText => some 0
  | .unparseable => none
  | .num q => some q

/-- One entry of the 24h-change ticker list. -/
structure Ticker where
  symbol : String
  priceChangePercent : PctField
deriving Repr

/-- Python substring containment test (the in operator on strings). -/
def strContains (hay pat : String) : Bool :=
  (List.range (hay.data.length + 1)).any fun i => pat.data.isPrefixOf (hay.data.drop i)

/-- Symbol guards of get_top_gainers (bot.py lines 115-121). -/
def symbolOk (sym : String) : Bool :=
  sym.endsWith "USDT" && !sym.endsWith "BUSDUSDT" && !sym.endsWith "USDCUSDT"
    && !strContains sym "UPUSDT" && !strContains sym "DOWNUSDT"
    && !strContains sym "BULLUSDT" && !strContains sym "BEARUSDT"

/-- Combined per-entry filter of get_top_gainers: some pct exactly when the
entry survives lines 115-126 of bot.py. -/
def tickerPct (x : Ticker) : Option ℚ :=
  if symbolOk x.symbol then parsePct x.priceChangePercent else none

/-- Insertion into a list sorted by descending key, placing the new element
after all existing elements of greater or equal key. -/
def insertDesc {α : Type} (key : α → ℚ) (x : α) : List α → List α
  | [] => [x]
  | y :: ys => if key x ≤ key y then y :: insertDesc key x ys else x :: y :: ys

/-- Stable descending sort by a rational key; models the stable Python
list.sort with a key and reverse=True of bot.py line 128. -/
def sortDesc {α : Type} (key : α → ℚ) (l : List α) : List α :=
  l.foldl (fun acc x => insertDesc key x acc) []

/-- get_top_gainers of bot.py lines 109-129. -/
def get_top_gainers (data : List Ticker) (top_n : Nat) : List String :=
  let usdt := data.filterMap fun x => (tickerPct x).map fun p => (x.symbol, p)
  let sorted := sortDesc (fun t => t.2) usdt
  (sorted.take top_n).map fun t => t.1

/-- Eligible entries tagged with their position in the original ticker
list. -/
def eligIndexed (data : List Ticker) : List (Nat × String × ℚ) :=
  data.enum.filterMap fun p => (tickerPct p.2).map fun q => (p.1, p.2.symbol, q)

/-- Specified output order: strictly greater percentage first, ties broken
by original ticker-list position. -/
def specLT (a b : Nat × String × ℚ) : Prop :=
  b.2.2 < a.2.2 ∨ (a.2.2 = b.2.2 ∧ a.1 < b.1)

/-- Modelled from the spec: the impulse test of the impulse/pullback bot
variant, whose source file is not part of this repository snapshot.
Spec 4.3: last closed candle is bullish (close above open) and the body
move (close - open)/open at or above the threshold; fails closed when
open is not positive. -/
def is_impulse (c : Candle) (threshold : ℚ) : Bool :=
  if c.open_ ≤ 0 then false
  else decide (c.close > c.open_) && decide ((c.close - c.open_) / c.open_ ≥ threshold)

end Bot

namespace Muboh

/-- Word character of the regex word boundary; the ASCII fragment of the
Python re word class (letters, digits, underscore). -/
def isWordChar (c : Char) : Bool := c.isAlphanum || c == '_'

/-- Case-insensitive character comparison in the ASCII fragment, matching
re.IGNORECASE for the ASCII tokens used here. -/
def caseEq (a b : Char) : Bool := a.toUpper == b.toUpper

/-- Case-insensitive prefix test on character lists. -/
def isPrefixCI : List Char → List Char → Bool
  | [], _ => true
  | _ :: _, [] => false
  | a :: ta, b :: tb => caseEq a b && isPrefixCI ta tb

/-- Word boundary next to a given neighbouring character (none at the ends
of the text); the tokens searched here consist of word characters only,
so a boundary holds exactly when the neighbour is absent or non-word. -/
def boundaryB : Option Char → Bool
  | none => true
  | some c => !isWordChar c

/-- Word boundary after a token match starting at the head of s. -/
def afterB (tok s : List Char) : Bool := boundaryB (s.drop tok.length).head?

/-- Scan for a word-bounded case-insensitive occurrence of tok, with prev
the character just before the current position. -/
def searchFrom (tok : List Char) : Option Char → List Char → Bool
  | prev, [] => boundaryB prev && isPrefixCI tok [] && afterB tok []
  | prev, c :: rest =>
    (boundaryB prev && isPrefixCI tok (c :: rest) && afterB tok (c :: rest))
      || searchFrom tok (some c) rest

/-- Word-bounded case-insensitive containment: models re.search of a
pattern framed by word boundaries (muboh_bot.py lines 76-77). -/
def hasTokenCI (tok text : List Char) : Bool := searchFrom tok none text

/-- Token of MUBOH_RE (muboh_bot.py line 76). -/
def mubohTok : List Char := ['M', 'U', 'B', 'O', 'H']

/-- Alternation tokens of NOMUBOH_RE (muboh_bot.py line 77). -/
def nomubohToks : List (List Char) :=
  [['N', 'O', 'M', 'U', 'B', 'O', 'H'],
   ['H', 'A', 'R', 'O', 'M'],
   ['S', 'H', 'U', 'B', 'H', 'A'],
   ['M', 'A', 'S', 'H', 'K', 'U', 'K']]

/-- Successful search of MUBOH_RE on a text. -/
def mubohSearch (t : List Char) : Bool := hasTokenCI mubohTok t

/-- Successful search of NOMUBOH_RE on a text. -/
def nomubohSearch (t : List Char) : Bool := nomubohToks.any fun tok => hasTokenCI tok t

/-- Python str.strip with no arguments: whitespace removed from both ends. -/
def pyStrip (l : List Char) : List Char :=
  ((l.dropWhile Char.isWhitespace).reverse.dropWhile Char.isWhitespace).reverse

/-- extract_hukm_from_text of muboh_bot.py lines 92-106. -/
def extract_hukm_from_text (text : List Char) : String × List Char :=
  if text = [] then ("UNKNOWN", [])
  else
    let t := pyStrip text
    if nomubohSearch t then ("NOMUBOH", t.take 800)
    else if mubohSearch t then ("MUBOH", t.take 800)
    else ("UNKNOWN", t.take 800)

/-- looks_like_hukm_message of muboh_bot.py lines 121-125. -/
def looks_like_hukm_message (t : List Char) : Bool :=
  if t = [] then false else mubohSearch t || nomubohSearch t

/-- Ticker character class [A-Z0-9] of TICKER_RE (muboh_bot.py line 74). -/
def isTickerChar (c : Char) : Bool :=
  (decide ('A' ≤ c) && decide (c ≤ 'Z')) || (decide ('0' ≤ c) && decide (c ≤ '9'))

/-- Uppercasing of a character list (ASCII fragment of str.upper). -/
def upperL (l : List Char) : List Char := l.map Char.toUpper

/-- Lowercasing of a character list (ASCII fragment of str.lower). -/
def lowerL (l : List Char) : List Char := l.map Char.toLower

/-- First whitespace-delimited token, i.e. split()[0] of a stripped text. -/
def firstToken (l : List Char) : List Char :=
  (l.dropWhile Char.isWhitespace).takeWhile fun c => !c.isWhitespace

/-- extract_first_ticker of muboh_bot.py lines 79-90: the first token of
the stripped text, uppercased, accepted when TICKER_RE matches it in
full.  A text that strips to nothing would raise IndexError in Python;
that point is unreachable from the handler (which pre-strips) and is
modelled as none. -/
def extract_first_ticker (text : List Char) : Option (List Char) :=
  if text = [] then none
  else
    let token := upperL (firstToken (pyStrip text))
    if 2 ≤ token.length ∧ token.length ≤ 12 ∧ token.all isTickerChar then some token
    else none

/-- Dash form of the ticker match in the hukm branch (muboh_bot.py lines
152-154), the anchored pattern of 2 to 12 ticker characters followed by
optional whitespace and a dash on the uppercased stripped text.  The
greedy repetition can only succeed when it consumes the whole maximal
ticker-character run, so the match is modelled through that run. -/
def dashTicker (text : List Char) : Option (List Char) :=
  let up := upperL (pyStrip text)
  let r := up.takeWhile isTickerChar
  let nextIsDash :=
    match ((up.drop r.length).dropWhile Char.isWhitespace).head? with
    | some c => c == '-' || c == '–'
    | none => false
  if 2 ≤ r.length ∧ r.length ≤ 12 ∧ nextIsDash = true then some r
  else none

/-- Stored verdict record (muboh_bot.py, class HukmRecord). -/
structure HukmRecord where
  ticker : List Char
  hukm : String
  detail : List Char
  source : List Char
  ts : ℚ
deriving DecidableEq, Repr

/-- Association-list lookup, observational model of a Python dict read. -/
def lookupA {β : Type} (m : List (List Char × β)) (k : List Char) : Option β :=
  (m.find? fun p => p.1 == k).map fun p => p.2

/-- Association-list update, observational model of a Python dict write. -/
def insertA {β : Type} (m : List (List Char × β)) (k : List Char) (v : β) :
    List (List Char × β) :=
  (k, v) :: m.filter fun p => p.1 ≠ k

/-- Persistent database of muboh_bot.py: verdict records and the per-ticker
last reply times. -/
structure Db where
  records : List (List Char × HukmRecord)
  last_reply_ts : List (List Char × ℚ)
deriving DecidableEq, Repr

/-- db_get_record of muboh_bot.py lines 54-58. -/
def db_get_record (db : Db) (ticker : List Char) : Option HukmRecord :=
  lookupA db.records (upperL ticker)

/-- db_set_record of muboh_bot.py lines 60-61. -/
def db_set_record (db : Db) (rec : HukmRecord) : Db :=
  { db with records := insertA db.records (upperL rec.ticker) rec }

/-- cooldown_ok of muboh_bot.py lines 63-65, with the wall clock and the
configured COOLDOWN_SECONDS passed explicitly; a ticker never replied to
defaults to time 0. -/
def cooldown_ok (cooldown : ℚ) (db : Db) (ticker : List Char) (now : ℚ) : Bool :=
  decide (now - ((lookupA db.last_reply_ts (upperL ticker)).getD 0) ≥ cooldown)

/-- mark_replied of muboh_bot.py lines 67-68. -/
def mark_replied (db : Db) (ticker : List Char) (now : ℚ) : Db :=
  { db with last_reply_ts := insertA db.last_reply_ts (upperL ticker) now }

/-- Group reply sent by msg.reply_text; the verdict field stands for the
three reply text templates of muboh_bot.py lines 201-206. -/
structure Reply where
  ticker : List Char
  verdict : String
deriving DecidableEq, Repr

/-- Verdict block of muboh_bot.py lines 201-206. -/
def replyVerdict (hukm : String) : String :=
  if hukm = "MUBOH" then "MUBOH"
  else if hukm = "NOMUBOH" then "NOMUBOH"
  else "UNKNOWN"

/-- on_group_message of muboh_bot.py lines 131-210, as a pure function of
the database, the message text, the resolved source username and the wall
clock.  The chat-id filter and the admin direct message are Telegram glue
outside the model; the returned option is the group reply.  The first
match models the early returns of the hukm-recording branch, whose
fall-through happens exactly when no ticker was recognised there. -/
def on_group_message (cooldown : ℚ) (trust : List (List Char)) (db : Db)
    (text : List Char) (source : List Char) (now : ℚ) : Db × Option Reply :=
  if text = [] then (db, none)
  else
    let t := pyStrip text
    let hukmPath : Option (Db × Option Reply) :=
      if looks_like_hukm_message t then
        let ticker0 :=
          match extract_first_ticker t with
          | some tk => some tk
          | none => dashTicker t
        if trust ≠ [] ∧ source ≠ [] ∧ ¬ lowerL source ∈ trust then some (db, none)
        else
          match ticker0 with
          | some tk =>
            let hd := extract_hukm_from_text t
            if hd.1 = "MUBOH" ∨ hd.1 = "NOMUBOH" then
              some (db_set_record db ⟨upperL tk, hd.1, hd.2, source, now⟩, none)
            else none
          | none => none
      else none
    match hukmPath with
    | some r => r
    | none =>
      match extract_first_ticker t with
      | none => (db, none)
      | some tk =>
        match db_get_record db tk with
        | none => (db, none)
        | some rec =>
          if cooldown_ok cooldown db tk now then
            (mark_replied db tk now, some ⟨tk, replyVerdict rec.hukm⟩)
          else (db, none)

end Muboh

namespace Bot

/-! Helper lemmas about the handle_signals stages, shared by several
theorems below. -/

theorem handle_signals_absent (near : ℚ) (symbol : String) (s : SymState) (t : Tick)
    (h : t.tf1.ichi = none ∨ t.tf4.ichi = none ∨ t.tf15.ichi = none) :
    handle_signals near symbol s t = (s, []) := by
  rcases h1 : t.tf1.ichi with _ | i1 <;> rcases h4 : t.tf4.ichi with _ | i4 <;>
    rcases h15 : t.tf15.ichi with _ | i15 <;> simp_all [handle_signals]

theorem handle_signals_present (near : ℚ) (symbol : String) (s : SymState) (t : Tick)
    (i1 i4 i15 : Ichi) (h1 : t.tf1.ichi = some i1) (h4 : t.tf4.ichi = some i4)
    (h15 : t.tf15.ichi = some i15) :
    handle_signals near symbol s t =
      ((sellStep (buyStep (armStep near symbol s t).1 t).1 t).1,
        (if (armStep near symbol s t).2 then [AlertKind.arm] else [])
          ++ (if (buyStep (armStep near symbol s t).1 t).2 then [AlertKind.buy] else [])
          ++ (if (sellStep (buyStep (armStep near symbol s t).1 t).1 t).2 then
                [AlertKind.sell] else [])) := by
  simp [handle_signals, h1, h4, h15]

theorem armStep_eq (near : ℚ) (symbol : String) (s : SymState) (t : Tick) :
    armStep near symbol s t = (s, false) ∨
    (s.setup_id ≠ some ⟨symbol, (t.tf1.closed.getLastD dCandle).open_time⟩ ∧
      s.in_position = false ∧
      armStep near symbol s t =
        ({ s with
            setup_id := some ⟨symbol, (t.tf1.closed.getLastD dCandle).open_time⟩,
            armed_1d := some ⟨symbol, (t.tf1.closed.getLastD dCandle).open_time⟩,
            buy_done_4h := none, sell_done_15m := none }, true)) := by
  unfold armStep
  cases hi : t.tf1.ichi with
  | none => exact Or.inl rfl
  | some i1 =>
    dsimp only
    split
    · next hcond => exact Or.inr ⟨hcond.2.1, hcond.2.2, rfl⟩
    · exact Or.inl rfl

theorem buyStep_eq (s : SymState) (t : Tick) :
    buyStep s t = (s, false) ∨
    (s.buy_done_4h ≠ s.setup_id ∧ s.in_position = false ∧
      buyStep s t = ({ s with buy_done_4h := s.setup_id, in_position := true }, true)) := by
  unfold buyStep
  cases hi : t.tf4.ichi with
  | none => exact Or.inl rfl
  | some i4 =>
    dsimp only
    split
    · next hcond =>
      split
      · next hdedup => exact Or.inr ⟨hdedup, hcond.2, rfl⟩
      · exact Or.inl rfl
    · exact Or.inl rfl

theorem sellStep_eq (s : SymState) (t : Tick) :
    sellStep s t = (s, false) ∨
    (s.sell_done_15m ≠ s.setup_id ∧ s.in_position = true ∧
      sellStep s t =
        ({ s with sell_done_15m := s.setup_id, in_position := false }, true)) := by
  unfold sellStep
  cases hi : t.tf15.ichi with
  | none => exact Or.inl rfl
  | some i15 =>
    dsimp only
    split
    · next hpos =>
      split
      · split
        · next hdedup => exact Or.inr ⟨hdedup, hpos, rfl⟩
        · exact Or.inl rfl
      · exact Or.inl rfl
    · exact Or.inl rfl

theorem buyStep_pres (s : SymState) (t : Tick) :
    (buyStep s t).1.setup_id = s.setup_id ∧ (buyStep s t).1.armed_1d = s.armed_1d ∧
    (buyStep s t).1.sell_done_15m = s.sell_done_15m := by
  rcases buyStep_eq s t with h | ⟨-, -, h⟩ <;> rw [h] <;> exact ⟨rfl, rfl, rfl⟩

theorem sellStep_pres (s : SymState) (t : Tick) :
    (sellStep s t).1.setup_id = s.setup_id ∧ (sellStep s t).1.armed_1d = s.armed_1d ∧
    (sellStep s t).1.buy_done_4h = s.buy_done_4h := by
  rcases sellStep_eq s t with h | ⟨-, -, h⟩ <;> rw [h] <;> exact ⟨rfl, rfl, rfl⟩

theorem lastN_map {α β : Type} (f : α → β) (n : Nat) (l : List α) :
    lastN n (l.map f) = (lastN n l).map f := by
  simp [lastN]

theorem getD_map_close (l : List Candle) (i : Nat) (h : i < l.length) :
    (l.map Candle.close).getD i 0 = (l.getD i dCandle).close := by
  rw [List.getD_eq_get?, List.getD_eq_get?, List.get?_map, List.get?_eq_get h]
  rfl

theorem getLastD_map_close (l : List Candle) (h : 0 < l.length) :
    (l.map Candle.close).getLastD 0 = (l.getD (l.length - 1) dCandle).close := by
  have hlt : l.length - 1 < l.length := by omega
  rw [List.getLastD_eq_getLast?, List.getLast?_eq_get?, List.length_map, List.get?_map,
    List.get?_eq_get hlt, List.getD_eq_get?, List.get?_eq_get hlt]
  rfl

end Bot

/-- C4: a closed-candle sequence shorter than 80 yields an absent snapshot
rather than a zero value or an error: ichimoku_lines returns none, the
refreshed cache entry stores an absent ichi field, and a handle_signals
tick with any absent snapshot leaves the state unchanged and emits no
alert. -/
theorem C4_absent_snapshot_noop :
    (∀ closed : List Bot.Candle, closed.length < 80 → Bot.ichimoku_lines closed = none) ∧
    (∀ candles : List Bot.Candle, candles.dropLast.length < 80 →
      (Bot.refresh_tf_entry candles).ichi = none) ∧
    (∀ (near : ℚ) (symbol : String) (s : Bot.SymState) (t : Bot.Tick),
      t.tf1.ichi = none ∨ t.tf4.ichi = none ∨ t.tf15.ichi = none →
      Bot.handle_signals near symbol s t = (s, [])) := by
  refine ⟨?_, ?_, ?_⟩
  · intro closed h
    simp [Bot.ichimoku_lines, h]
  · intro candles h
    simp only [Bot.refresh_tf_entry]
    rw [if_pos h]
  · exact fun near symbol s t h => Bot.handle_signals_absent near symbol s t h

/-- Witness for C4 at concrete inputs. -/
theorem C4_absent_snapshot_noop_witness :
    Bot.ichimoku_lines [] = none ∧
    (Bot.refresh_tf_entry [Bot.dCandle]).ichi = none ∧
    Bot.handle_signals 0 "BTCUSDT" ⟨none, none, none, false, none⟩
      ⟨⟨[], none⟩, ⟨[], none⟩, ⟨[], none⟩⟩ = (⟨none, none, none, false, none⟩, []) :=
  ⟨C4_absent_snapshot_noop.1 [] (by decide),
   C4_absent_snapshot_noop.2.1 [Bot.dCandle] (by decide),
   C4_absent_snapshot_noop.2.2 0 "BTCUSDT" _ _ (Or.inl rfl)⟩

/-- C5: the closed-candle subsequence used for indicator computation is the
fetched sequence with its last (forming) element removed, and last_closed
of a sequence of length at least 2 is its second-to-last element. -/
theorem C5_forming_candle_excluded :
    ∀ (l : List Bot.Candle) (c d : Bot.Candle),
      (Bot.refresh_tf_entry (l ++ [c])).closed = l ∧
      (Bot.refresh_tf_entry (l ++ [c])).ichi =
        (if l.length < 80 then none else Bot.ichimoku_lines l) ∧
      Bot.last_closed (l ++ [c, d]) = some c := by
  intro l c d
  refine ⟨?_, ?_, ?_⟩
  · simp only [Bot.refresh_tf_entry, List.dropLast_concat]
    split <;> rfl
  · simp only [Bot.refresh_tf_entry, List.dropLast_concat]
    split <;> rfl
  · unfold Bot.last_closed
    have hlen : (l ++ [c, d]).length = l.length + 2 := by simp
    rw [hlen, if_neg (by omega)]
    have h2 : l.length + 2 - 2 = l.length := by omega
    rw [h2, List.getD_eq_get?, List.get?_append_right (Nat.le_refl _)]
    simp

/-- C7 (spec-modelled): for a candle with positive open the impulse test
holds exactly when the candle is bullish and the relative body move is at
or above the threshold; for non-positive open it is always false. -/
theorem C7_impulse_test :
    ∀ (c : Bot.Candle) (threshold : ℚ),
      (0 < c.open_ →
        (Bot.is_impulse c threshold = true ↔
          c.open_ < c.close ∧ threshold ≤ (c.close - c.open_) / c.open_)) ∧
      (c.open_ ≤ 0 → Bot.is_impulse c threshold = false) := by
  intro c th
  constructor
  · intro hpos
    unfold Bot.is_impulse
    rw [if_neg (by linarith)]
    simp [gt_iff_lt, ge_iff_le]
  · intro hnp
    unfold Bot.is_impulse
    rw [if_pos hnp]

/-- Witness for C7 at a concrete bullish candle and a non-positive open. -/
theorem C7_impulse_test_witness :
    ((0 : ℚ) < 100 ∧
      (Bot.is_impulse ⟨0, 100, 101, 99, 101, 0, 1⟩ (1/100) = true ↔
        (100 : ℚ) < 101 ∧ (1/100 : ℚ) ≤ (101 - 100) / 100)) ∧
    ((0 : ℚ) ≤ 0 ∧ Bot.is_impulse ⟨0, 0, 1, 0, 1, 0, 1⟩ (1/100) = false) :=
  ⟨⟨by norm_num, (C7_impulse_test ⟨0, 100, 101, 99, 101, 0, 1⟩ (1/100)).1 (by norm_num)⟩,
   ⟨le_refl 0, (C7_impulse_test ⟨0, 0, 1, 0, 1, 0, 1⟩ (1/100)).2 (by norm_num)⟩⟩

/-- C3: for at least 80 closed candles the snapshot exists, tenkan, kijun
and senkou_b are the high-low midpoints over the most recent 9, 26 and 52
candles, senkou_a is the average of tenkan and kijun, cloud_top and
cloud_bottom bound the senkou pair, and chikou holds exactly when the
last close strictly exceeds the close 26 candles earlier. -/
theorem C3_ichimoku_formulas :
    ∀ closed : List Bot.Candle, 80 ≤ closed.length →
      ∃ r : Bot.Ichi, Bot.ichimoku_lines closed = some r ∧
        r.tenkan = (Bot.listMax ((Bot.lastN 9 closed).map Bot.Candle.high)
            + Bot.listMin ((Bot.lastN 9 closed).map Bot.Candle.low)) / 2 ∧
        r.kijun = (Bot.listMax ((Bot.lastN 26 closed).map Bot.Candle.high)
            + Bot.listMin ((Bot.lastN 26 closed).map Bot.Candle.low)) / 2 ∧
        r.senkou_a = (r.tenkan + r.kijun) / 2 ∧
        r.senkou_b = (Bot.listMax ((Bot.lastN 52 closed).map Bot.Candle.high)
            + Bot.listMin ((Bot.lastN 52 closed).map Bot.Candle.low)) / 2 ∧
        r.cloud_top = max r.senkou_a r.senkou_b ∧
        r.cloud_bottom = min r.senkou_a r.senkou_b ∧
        (r.chikou_ok = true ↔
          (closed.getD (closed.length - 27) Bot.dCandle).close
            < (closed.getD (closed.length - 1) Bot.dCandle).close) := by
  intro closed h
  have h80 : ¬ closed.length < 80 := by omega
  unfold Bot.ichimoku_lines
  rw [if_neg h80]
  dsimp only
  refine ⟨_, rfl, ?_, ?_, rfl, ?_, rfl, rfl, ?_⟩
  · simp [Bot.midpoint, Bot.lastN_map]
  · simp [Bot.midpoint, Bot.lastN_map]
  · simp [Bot.midpoint, Bot.lastN_map]
  · rw [List.length_map, if_pos (by omega),
      Bot.getLastD_map_close _ (by omega), Bot.getD_map_close _ _ (by omega)]
    simp [gt_iff_lt]

/-- Witness for C3 on a concrete sequence of 80 candles with monotone
highs and closes. -/
theorem C3_ichimoku_formulas_witness :
    (80 : Nat) ≤ (((List.range 80).map fun i =>
      (⟨i, 1, (i : ℚ) + 2, 1, (i : ℚ) + 1, 0, i + 1⟩ : Bot.Candle)) : List Bot.Candle).length ∧
    (∃ r : Bot.Ichi,
      Bot.ichimoku_lines ((List.range 80).map fun i =>
        (⟨i, 1, (i : ℚ) + 2, 1, (i : ℚ) + 1, 0, i + 1⟩ : Bot.Candle)) = some r ∧
      r.tenkan = (Bot.listMax ((Bot.lastN 9 ((List.range 80).map fun i =>
            (⟨i, 1, (i : ℚ) + 2, 1, (i : ℚ) + 1, 0, i + 1⟩ : Bot.Candle))).map Bot.Candle.high)
          + Bot.listMin ((Bot.lastN 9 ((List.range 80).map fun i =>
            (⟨i, 1, (i : ℚ) + 2, 1, (i : ℚ) + 1, 0, i + 1⟩ : Bot.Candle))).map Bot.Candle.low)) / 2 ∧
      r.kijun = (Bot.listMax ((Bot.lastN 26 ((List.range 80).map fun i =>
            (⟨i, 1, (i : ℚ) + 2, 1, (i : ℚ) + 1, 0, i + 1⟩ : Bot.Candle))).map Bot.Candle.high)
          + Bot.listMin ((Bot.lastN 26 ((List.range 80).map fun i =>
            (⟨i, 1, (i : ℚ) + 2, 1, (i : ℚ) + 1, 0, i + 1⟩ : Bot.Candle))).map Bot.Candle.low)) / 2 ∧
      r.senkou_a = (r.tenkan + r.kijun) / 2 ∧
      r.senkou_b = (Bot.listMax ((Bot.lastN 52 ((List.range 80).map fun i =>
            (⟨i, 1, (i : ℚ) + 2, 1, (i : ℚ) + 1, 0, i + 1⟩ : Bot.Candle))).map Bot.Candle.high)
          + Bot.listMin ((Bot.lastN 52 ((List.range 80).map fun i =>
            (⟨i, 1, (i : ℚ) + 2, 1, (i : ℚ) + 1, 0, i + 1⟩ : Bot.Candle))).map Bot.Candle.low)) / 2 ∧
      r.cloud_top = max r.senkou_a r.senkou_b ∧
      r.cloud_bottom = min r.senkou_a r.senkou_b ∧
      (r.chikou_ok = true ↔
        (((List.range 80).map fun i =>
            (⟨i, 1, (i : ℚ) + 2, 1, (i : ℚ) + 1, 0, i + 1⟩ : Bot.Candle)).getD
              ((((List.range 80).map fun i =>
                (⟨i, 1, (i : ℚ) + 2, 1, (i : ℚ) + 1, 0, i + 1⟩ : Bot.Candle)).length - 27))
              Bot.dCandle).close
          < (((List.range 80).map fun i =>
            (⟨i, 1, (i : ℚ) + 2, 1, (i : ℚ) + 1, 0, i + 1⟩ : Bot.Candle)).getD
              ((((List.range 80).map fun i =>
                (⟨i, 1, (i : ℚ) + 2, 1, (i : ℚ) + 1, 0, i + 1⟩ : Bot.Candle)).length - 1))
              Bot.dCandle).close)) :=
  ⟨by decide, C3_ichimoku_formulas _ (by decide)⟩

namespace Bot

theorem handle_signals_cases (near : ℚ) (symbol : String) (s : SymState) (t : Tick) :
    handle_signals near symbol s t = (s, []) ∨
    handle_signals near symbol s t =
      ((sellStep (buyStep (armStep near symbol s t).1 t).1 t).1,
        (if (armStep near symbol s t).2 then [AlertKind.arm] else [])
          ++ (if (buyStep (armStep near symbol s t).1 t).2 then [AlertKind.buy] else [])
          ++ (if (sellStep (buyStep (armStep near symbol s t).1 t).1 t).2 then
                [AlertKind.sell] else [])) := by
  rcases h1 : t.tf1.ichi with _ | i1
  · exact Or.inl (handle_signals_absent near symbol s t (Or.inl h1))
  · rcases h4 : t.tf4.ichi with _ | i4
    · exact Or.inl (handle_signals_absent near symbol s t (Or.inr (Or.inl h4)))
    · rcases h15 : t.tf15.ichi with _ | i15
      · exact Or.inl (handle_signals_absent near symbol s t (Or.inr (Or.inr h15)))
      · exact Or.inr (handle_signals_present near symbol s t i1 i4 i15 h1 h4 h15)

theorem hs_no_arm (near : ℚ) (symbol : String) (s : SymState) (t : Tick)
    (ha : armStep near symbol s t = (s, false)) :
    (handle_signals near symbol s t).1.setup_id = s.setup_id ∧
    (handle_signals near symbol s t).1.armed_1d = s.armed_1d ∧
    AlertKind.arm ∉ (handle_signals near symbol s t).2 := by
  rcases handle_signals_cases near symbol s t with hstep | hstep <;> rw [hstep]
  · exact ⟨rfl, rfl, by simp⟩
  · rw [ha]
    refine ⟨?_, ?_, ?_⟩
    · exact ((sellStep_pres _ t).1).trans ((buyStep_pres s t).1)
    · exact ((sellStep_pres _ t).2.1).trans ((buyStep_pres s t).2.1)
    · cases hb : (buyStep s t).2 <;> cases hc : (sellStep (buyStep s t).1 t).2 <;>
        simp [hb, hc]

theorem hs_arm_mem (near : ℚ) (symbol : String) (s : SymState) (t : Tick)
    (h : AlertKind.arm ∈ (handle_signals near symbol s t).2) :
    (armStep near symbol s t).2 = true := by
  rcases handle_signals_cases near symbol s t with hstep | hstep <;> rw [hstep] at h
  · simp at h
  · by_cases ha : (armStep near symbol s t).2 = true
    · exact ha
    · rw [Bool.not_eq_true] at ha
      rw [ha] at h
      cases hb : (buyStep (armStep near symbol s t).1 t).2 <;>
        cases hc : (sellStep (buyStep (armStep near symbol s t).1 t).1 t).2 <;>
        rw [hb, hc] at h <;> simp at h

end Bot

/-- C8: while in_position is true no ARM transition is taken (the ARM stage
leaves the state unchanged) and handle_signals does not change setup_id;
conversely an ARM alert can only be emitted from a state that is not in
position, so a new setup cycle can begin only after a SELL has reset
in_position. -/
theorem C8_in_position_blocks_arm :
    ∀ (near : ℚ) (symbol : String) (s : Bot.SymState) (t : Bot.Tick),
      (s.in_position = true →
        Bot.armStep near symbol s t = (s, false) ∧
        (Bot.handle_signals near symbol s t).1.setup_id = s.setup_id ∧
        Bot.AlertKind.arm ∉ (Bot.handle_signals near symbol s t).2) ∧
      (Bot.AlertKind.arm ∈ (Bot.handle_signals near symbol s t).2 →
        s.in_position = false) := by
  intro near symbol s t
  constructor
  · intro h
    have ha : Bot.armStep near symbol s t = (s, false) := by
      rcases Bot.armStep_eq near symbol s t with ha | ⟨-, hpos, -⟩
      · exact ha
      · rw [h] at hpos
        exact absurd hpos (by simp)
    have hrest := Bot.hs_no_arm near symbol s t ha
    exact ⟨ha, hrest.1, hrest.2.2⟩
  · intro hmem
    have ha := Bot.hs_arm_mem near symbol s t hmem
    rcases Bot.armStep_eq near symbol s t with ha' | ⟨-, hpos, -⟩
    · rw [ha'] at ha
      simp at ha
    · exact hpos

/-- Witness for C8: a blocked ARM while in position, and an emitted ARM
from a state that is not in position. -/
theorem C8_in_position_blocks_arm_witness :
    ((⟨none, none, none, true, some ⟨"BTCUSDT", 1000⟩⟩ : Bot.SymState).in_position = true ∧
      Bot.armStep (3/200) "BTCUSDT" ⟨none, none, none, true, some ⟨"BTCUSDT", 1000⟩⟩
        ⟨⟨[⟨2000, 1, 2, 1, 199/100, 1, 2999⟩], some ⟨2, 1, 2, 1, 2, 1, true⟩⟩,
         ⟨[Bot.dCandle], some ⟨1, 2, 1, 2, 2, 1, false⟩⟩,
         ⟨[Bot.dCandle], some ⟨1, 2, 1, 2, 2, 1, false⟩⟩⟩ =
        (⟨none, none, none, true, some ⟨"BTCUSDT", 1000⟩⟩, false)) ∧
    (Bot.AlertKind.arm ∈ (Bot.handle_signals (3/200) "BTCUSDT"
        ⟨none, none, none, false, none⟩
        ⟨⟨[⟨2000, 1, 2, 1, 199/100, 1, 2999⟩], some ⟨2, 1, 2, 1, 2, 1, true⟩⟩,
         ⟨[Bot.dCandle], some ⟨1, 2, 1, 2, 2, 1, false⟩⟩,
         ⟨[Bot.dCandle], some ⟨1, 2, 1, 2, 2, 1, false⟩⟩⟩).2 ∧
      (⟨none, none, none, false, none⟩ : Bot.SymState).in_position = false) :=
  by
  have hmem : Bot.AlertKind.arm ∈ (Bot.handle_signals (3/200) "BTCUSDT"
      ⟨none, none, none, false, none⟩
      ⟨⟨[⟨2000, 1, 2, 1, 199/100, 1, 2999⟩], some ⟨2, 1, 2, 1, 2, 1, true⟩⟩,
       ⟨[Bot.dCandle], some ⟨1, 2, 1, 2, 2, 1, false⟩⟩,
       ⟨[Bot.dCandle], some ⟨1, 2, 1, 2, 2, 1, false⟩⟩⟩).2 := by
    norm_num [Bot.handle_signals, Bot.armStep, Bot.buyStep, Bot.sellStep,
      Bot.bullish_1d_near, Bot.dCandle]
    simp
  exact ⟨⟨rfl, ((C8_in_position_blocks_arm (3/200) "BTCUSDT"
      ⟨none, none, none, true, some ⟨"BTCUSDT", 1000⟩⟩
      ⟨⟨[⟨2000, 1, 2, 1, 199/100, 1, 2999⟩], some ⟨2, 1, 2, 1, 2, 1, true⟩⟩,
       ⟨[Bot.dCandle], some ⟨1, 2, 1, 2, 2, 1, false⟩⟩,
       ⟨[Bot.dCandle], some ⟨1, 2, 1, 2, 2, 1, false⟩⟩⟩).1 rfl).1⟩,
   ⟨hmem, (C8_in_position_blocks_arm (3/200) "BTCUSDT"
      ⟨none, none, none, false, none⟩
      ⟨⟨[⟨2000, 1, 2, 1, 199/100, 1, 2999⟩], some ⟨2, 1, 2, 1, 2, 1, true⟩⟩,
       ⟨[Bot.dCandle], some ⟨1, 2, 1, 2, 2, 1, false⟩⟩,
       ⟨[Bot.dCandle], some ⟨1, 2, 1, 2, 2, 1, false⟩⟩⟩).2 hmem⟩⟩

/-- Counterexample to C2 as stated: a BTCUSDT tick whose 1D last-closed
open time 2000 differs from the stored setup identifier (open time 1000),
so a new daily candle has appeared, but whose ARM condition fails
(chikou_ok is false); handle_signals leaves the whole state unchanged, so
the tick neither starts a new cycle identifier nor clears the dedup
fields. -/
theorem C2_counterexample :
    ((⟨⟨[⟨2000, 1, 2, 1, 199/100, 1, 2999⟩], some ⟨2, 1, 2, 1, 2, 1, false⟩⟩,
       ⟨[Bot.dCandle], some ⟨1, 2, 1, 2, 2, 1, false⟩⟩,
       ⟨[Bot.dCandle], some ⟨1, 2, 1, 2, 2, 1, false⟩⟩⟩ :
        Bot.Tick).tf1.closed.getLastD Bot.dCandle).open_time = 2000 ∧
    (⟨none, some ⟨"BTCUSDT", 1000⟩, some ⟨"BTCUSDT", 1000⟩, false,
       some ⟨"BTCUSDT", 1000⟩⟩ : Bot.SymState).setup_id ≠ some ⟨"BTCUSDT", 2000⟩ ∧
    Bot.handle_signals (3/200) "BTCUSDT"
      ⟨none, some ⟨"BTCUSDT", 1000⟩, some ⟨"BTCUSDT", 1000⟩, false, some ⟨"BTCUSDT", 1000⟩⟩
      ⟨⟨[⟨2000, 1, 2, 1, 199/100, 1, 2999⟩], some ⟨2, 1, 2, 1, 2, 1, false⟩⟩,
       ⟨[Bot.dCandle], some ⟨1, 2, 1, 2, 2, 1, false⟩⟩,
       ⟨[Bot.dCandle], some ⟨1, 2, 1, 2, 2, 1, false⟩⟩⟩ =
      (⟨none, some ⟨"BTCUSDT", 1000⟩, some ⟨"BTCUSDT", 1000⟩, false,
        some ⟨"BTCUSDT", 1000⟩⟩, []) := by
  refine ⟨rfl, by simp, ?_⟩
  norm_num [Bot.handle_signals, Bot.armStep, Bot.buyStep, Bot.sellStep,
    Bot.bullish_1d_near, Bot.dCandle]

/-- C2 amended: a new 1D closed candle starts a new cycle identifier and
resets the dedup fields only on a tick where the 1D bullish-near-cloud
condition holds and the symbol is not in position; the ARM stage then
sets setup_id and armed_1d to the new identifier and clears buy_done_4h
and sell_done_15m (which the later stages of the same tick may re-set for
the new cycle).  On any other tick handle_signals leaves setup_id and
armed_1d unchanged and emits no ARM alert. -/
theorem C2_cycle_reset_guarded :
    ∀ (near : ℚ) (symbol : String) (s : Bot.SymState) (t : Bot.Tick) (i1 : Bot.Ichi),
      t.tf1.ichi = some i1 →
      ((Bot.bullish_1d_near near i1 (t.tf1.closed.getLastD Bot.dCandle) ∧
          s.setup_id ≠ some ⟨symbol, (t.tf1.closed.getLastD Bot.dCandle).open_time⟩ ∧
          s.in_position = false) →
        Bot.armStep near symbol s t =
          ({ s with
              setup_id := some ⟨symbol, (t.tf1.closed.getLastD Bot.dCandle).open_time⟩,
              armed_1d := some ⟨symbol, (t.tf1.closed.getLastD Bot.dCandle).open_time⟩,
              buy_done_4h := none, sell_done_15m := none }, true)) ∧
      (¬ (Bot.bullish_1d_near near i1 (t.tf1.closed.getLastD Bot.dCandle) ∧
          s.setup_id ≠ some ⟨symbol, (t.tf1.closed.getLastD Bot.dCandle).open_time⟩ ∧
          s.in_position = false) →
        (Bot.handle_signals near symbol s t).1.setup_id = s.setup_id ∧
        (Bot.handle_signals near symbol s t).1.armed_1d = s.armed_1d ∧
        Bot.AlertKind.arm ∉ (Bot.handle_signals near symbol s t).2) := by
  intro near symbol s t i1 h1
  constructor
  · intro hcond
    unfold Bot.armStep
    rw [h1]
    dsimp only
    rw [if_pos hcond]
  · intro hcond
    have ha : Bot.armStep near symbol s t = (s, false) := by
      unfold Bot.armStep
      rw [h1]
      dsimp only
      rw [if_neg hcond]
    exact Bot.hs_no_arm near symbol s t ha

/-- Witness for C2 amended: the ARM transition at a concrete firing tick,
and the unchanged state at the counterexample tick. -/
theorem C2_cycle_reset_guarded_witness :
    ((⟨⟨[⟨2000, 1, 2, 1, 199/100, 1, 2999⟩], some ⟨2, 1, 2, 1, 2, 1, true⟩⟩,
       ⟨[Bot.dCandle], some ⟨1, 2, 1, 2, 2, 1, false⟩⟩,
       ⟨[Bot.dCandle], some ⟨1, 2, 1, 2, 2, 1, false⟩⟩⟩ : Bot.Tick).tf1.ichi =
      some ⟨2, 1, 2, 1, 2, 1, true⟩) ∧
    Bot.armStep (3/200) "BTCUSDT"
      ⟨none, some ⟨"BTCUSDT", 1000⟩, some ⟨"BTCUSDT", 1000⟩, false, some ⟨"BTCUSDT", 1000⟩⟩
      ⟨⟨[⟨2000, 1, 2, 1, 199/100, 1, 2999⟩], some ⟨2, 1, 2, 1, 2, 1, true⟩⟩,
       ⟨[Bot.dCandle], some ⟨1, 2, 1, 2, 2, 1, false⟩⟩,
       ⟨[Bot.dCandle], some ⟨1, 2, 1, 2, 2, 1, false⟩⟩⟩ =
      (⟨some ⟨"BTCUSDT", 2000⟩, none, none, false, some ⟨"BTCUSDT", 2000⟩⟩, true) := by
  have happ := (C2_cycle_reset_guarded (3/200) "BTCUSDT"
    ⟨none, some ⟨"BTCUSDT", 1000⟩, some ⟨"BTCUSDT", 1000⟩, false, some ⟨"BTCUSDT", 1000⟩⟩
    ⟨⟨[⟨2000, 1, 2, 1, 199/100, 1, 2999⟩], some ⟨2, 1, 2, 1, 2, 1, true⟩⟩,
     ⟨[Bot.dCandle], some ⟨1, 2, 1, 2, 2, 1, false⟩⟩,
     ⟨[Bot.dCandle], some ⟨1, 2, 1, 2, 2, 1, false⟩⟩⟩ ⟨2, 1, 2, 1, 2, 1, true⟩ rfl).1
  refine ⟨rfl, ?_⟩
  exact happ ⟨by
      show Bot.bullish_1d_near (3/200) ⟨2, 1, 2, 1, 2, 1, true⟩
        ⟨2000, 1, 2, 1, 199/100, 1, 2999⟩
      norm_num [Bot.bullish_1d_near],
    by decide, rfl⟩

namespace Bot

theorem traceStates_cons (near : ℚ) (symbol : String) (s : SymState) (t : Tick)
    (ts : List Tick) :
    traceStates near symbol s (t :: ts) =
      (handle_signals near symbol s t).1 ::
        traceStates near symbol (handle_signals near symbol s t).1 ts := rfl

theorem traceCount_cons (near : ℚ) (symbol : String) (k : AlertKind) (s : SymState)
    (t : Tick) (ts : List Tick) :
    traceCount near symbol k s (t :: ts) =
      (handle_signals near symbol s t).2.count k
        + traceCount near symbol k (handle_signals near symbol s t).1 ts := rfl

theorem traceCount_nil (near : ℚ) (symbol : String) (k : AlertKind) (s : SymState) :
    traceCount near symbol k s [] = 0 := rfl

theorem count_arm_alerts (a b c : Bool) :
    ((if a then [AlertKind.arm] else []) ++ (if b then [AlertKind.buy] else [])
      ++ (if c then [AlertKind.sell] else [])).count AlertKind.arm
      = if a then 1 else 0 := by
  cases a <;> cases b <;> cases c <;> decide

theorem count_buy_alerts (a b c : Bool) :
    ((if a then [AlertKind.arm] else []) ++ (if b then [AlertKind.buy] else [])
      ++ (if c then [AlertKind.sell] else [])).count AlertKind.buy
      = if b then 1 else 0 := by
  cases a <;> cases b <;> cases c <;> decide

theorem count_sell_alerts (a b c : Bool) :
    ((if a then [AlertKind.arm] else []) ++ (if b then [AlertKind.buy] else [])
      ++ (if c then [AlertKind.sell] else [])).count AlertKind.sell
      = if c then 1 else 0 := by
  cases a <;> cases b <;> cases c <;> decide

/-- Core dedup invariant: along ticks whose post-states all carry the same
setup identifier v, a state already holding setup identifier v emits no
further ARM, at most one BUY (none when buy_done_4h is already v) and at
most one SELL (none when sell_done_15m is already v). -/
theorem cycleCountAux (near : ℚ) (symbol : String) (v : Option SetupId) :
    ∀ seg : List Tick, ∀ s : SymState, s.setup_id = v →
      (∀ s' ∈ traceStates near symbol s seg, s'.setup_id = v) →
      traceCount near symbol AlertKind.arm s seg = 0 ∧
      (s.buy_done_4h = v → traceCount near symbol AlertKind.buy s seg = 0) ∧
      traceCount near symbol AlertKind.buy s seg ≤ 1 ∧
      (s.sell_done_15m = v → traceCount near symbol AlertKind.sell s seg = 0) ∧
      traceCount near symbol AlertKind.sell s seg ≤ 1 := by
  intro seg
  induction seg with
  | nil =>
    intro s hs hT
    exact ⟨rfl, fun _ => rfl, Nat.zero_le 1, fun _ => rfl, Nat.zero_le 1⟩
  | cons t rest ih =>
    intro s hs hT
    have hv1 : (handle_signals near symbol s t).1.setup_id = v := by
      apply hT
      rw [traceStates_cons]
      exact List.mem_cons_self _ _
    have hTrest : ∀ s' ∈ traceStates near symbol (handle_signals near symbol s t).1 rest,
        s'.setup_id = v := by
      intro s' h'
      apply hT
      rw [traceStates_cons]
      exact List.mem_cons_of_mem _ h'
    rcases handle_signals_cases near symbol s t with hstep | hstep
    · rw [hstep] at hTrest
      simp only [traceCount_cons, hstep, List.count_nil, Nat.zero_add]
      exact ih s hs hTrest
    · have hA : armStep near symbol s t = (s, false) := by
        rcases armStep_eq near symbol s t with hA | ⟨hne, -, hA⟩
        · exact hA
        · exfalso
          apply hne
          have h1 : (handle_signals near symbol s t).1.setup_id =
              (armStep near symbol s t).1.setup_id := by
            rw [hstep]
            exact ((sellStep_pres _ t).1).trans ((buyStep_pres _ t).1)
          rw [hA] at h1
          dsimp only at h1
          rw [hs, ← hv1]
          exact h1
      rw [hstep] at hTrest hv1
      rw [hA] at hTrest hv1
      dsimp only at hTrest hv1
      simp only [traceCount_cons, hstep, hA, count_arm_alerts, count_buy_alerts,
        count_sell_alerts]
      rcases buyStep_eq s t with hB | ⟨hBne, hBpos, hB⟩
      · rw [hB] at hTrest hv1 ⊢
        dsimp only at hTrest hv1 ⊢
        rcases sellStep_eq s t with hC | ⟨hCne, hCpos, hC⟩
        · rw [hC] at hTrest hv1 ⊢
          dsimp only at hTrest hv1 ⊢
          have hrest := ih s hs hTrest
          refine ⟨by simpa using hrest.1, ?_, ?_, ?_, ?_⟩
          · intro hbd
            simpa using hrest.2.1 hbd
          · simpa using hrest.2.2.1
          · intro hsd
            simpa using hrest.2.2.2.1 hsd
          · simpa using hrest.2.2.2.2
        · rw [hC] at hTrest hv1 ⊢
          dsimp only at hTrest hv1 ⊢
          have hs3 : ({ s with
              sell_done_15m := s.setup_id
              in_position := false } : SymState).setup_id = v := hs
          have hrest := ih _ hs3 hTrest
          refine ⟨by simpa using hrest.1, ?_, ?_, ?_, ?_⟩
          · intro hbd
            have h0 := hrest.2.1 (by simpa using hbd)
            simpa using h0
          · simpa using hrest.2.2.1
          · intro hsd
            exact absurd (hsd.trans hs.symm) hCne
          · have h0 := hrest.2.2.2.1 (by simpa using hs)
            simp [h0]
      · rw [hB] at hTrest hv1 ⊢
        dsimp only at hTrest hv1 ⊢
        rcases sellStep_eq ({ s with
            buy_done_4h := s.setup_id
            in_position := true } : SymState) t with hC | ⟨hCne, hCpos, hC⟩
        · rw [hC] at hTrest hv1 ⊢
          dsimp only at hTrest hv1 ⊢
          have hs2 : ({ s with
              buy_done_4h := s.setup_id
              in_position := true } : SymState).setup_id = v := hs
          have hrest := ih _ hs2 hTrest
          refine ⟨by simpa using hrest.1, ?_, ?_, ?_, ?_⟩
          · intro hbd
            exact absurd (hbd.trans hs.symm) hBne
          · have h0 := hrest.2.1 (by simpa using hs)
            simp [h0]
          · intro hsd
            have h0 := hrest.2.2.2.1 (by simpa using hsd)
            simpa using h0
          · simpa using hrest.2.2.2.2
        · rw [hC] at hTrest hv1 ⊢
          dsimp only at hTrest hv1 ⊢
          have hs3 : (({ s with
              buy_done_4h := s.setup_id
              in_position := true } : SymState).setup_id = v) := hs
          have hs3' : ({ { s with
              buy_done_4h := s.setup_id
              in_position := true } with
              sell_done_15m := ({ s with
                buy_done_4h := s.setup_id
                in_position := true } : SymState).setup_id
              in_position := false } : SymState).setup_id = v := hs
          have hrest := ih _ hs3' hTrest
          refine ⟨by simpa using hrest.1, ?_, ?_, ?_, ?_⟩
          · intro hbd
            exact absurd (hbd.trans hs.symm) hBne
          · have h0 := hrest.2.1 (by simpa using hs)
            simp [h0]
          · intro hsd
            exact absurd (hsd.trans hs.symm) hCne
          · have h0 := hrest.2.2.2.1 (by simpa using hs)
            simp [h0]

theorem buy_fired_marks (s : SymState) (t : Tick) (h : (buyStep s t).2 = true) :
    (buyStep s t).1.buy_done_4h = (buyStep s t).1.setup_id := by
  rcases buyStep_eq s t with hB | ⟨-, -, hB⟩
  · rw [hB] at h
    exact absurd h (by simp)
  · rw [hB]

theorem sell_fired_marks (s : SymState) (t : Tick) (h : (sellStep s t).2 = true) :
    (sellStep s t).1.sell_done_15m = (sellStep s t).1.setup_id := by
  rcases sellStep_eq s t with hC | ⟨-, -, hC⟩
  · rw [hC] at h
    exact absurd h (by simp)
  · rw [hC]

end Bot

/-- C1: along any sequence of handle_signals ticks from any state, within
any window whose post-states all carry one fixed setup identifier, each
of the ARM, BUY and SELL alerts is emitted at most once; the three dedup
fields and the setup_id comparison enforce this. -/
theorem C1_alerts_once_per_cycle :
    ∀ (near : ℚ) (symbol : String) (s : Bot.SymState) (seg : List Bot.Tick)
      (v : Option Bot.SetupId),
      (∀ s' ∈ Bot.traceStates near symbol s seg, s'.setup_id = v) →
      Bot.traceCount near symbol Bot.AlertKind.arm s seg ≤ 1 ∧
      Bot.traceCount near symbol Bot.AlertKind.buy s seg ≤ 1 ∧
      Bot.traceCount near symbol Bot.AlertKind.sell s seg ≤ 1 := by
  intro near symbol s seg v
  induction seg generalizing s with
  | nil =>
    intro hT
    exact ⟨Nat.zero_le 1, Nat.zero_le 1, Nat.zero_le 1⟩
  | cons t rest ih =>
    intro hT
    have hv1 : (Bot.handle_signals near symbol s t).1.setup_id = v := by
      apply hT
      rw [Bot.traceStates_cons]
      exact List.mem_cons_self _ _
    have hTrest : ∀ s' ∈ Bot.traceStates near symbol
        (Bot.handle_signals near symbol s t).1 rest, s'.setup_id = v := by
      intro s' h'
      apply hT
      rw [Bot.traceStates_cons]
      exact List.mem_cons_of_mem _ h'
    rcases Bot.handle_signals_cases near symbol s t with hstep | hstep
    · rw [hstep] at hTrest
      dsimp only at hTrest
      simp only [Bot.traceCount_cons, hstep, List.count_nil, Nat.zero_add]
      exact ih s hTrest
    · rw [hstep] at hTrest hv1
      dsimp only at hTrest hv1
      simp only [Bot.traceCount_cons, hstep, Bot.count_arm_alerts,
        Bot.count_buy_alerts, Bot.count_sell_alerts]
      have haux := Bot.cycleCountAux near symbol v rest _ hv1 hTrest
      refine ⟨?_, ?_, ?_⟩
      · have h0 := haux.1
        cases hflag : (Bot.armStep near symbol s t).2 <;> simp [hflag, h0]
      · cases hflag : (Bot.buyStep (Bot.armStep near symbol s t).1 t).2
        · simpa [hflag] using haux.2.2.1
        · have hmark := Bot.buy_fired_marks (Bot.armStep near symbol s t).1 t hflag
          have hbd : (Bot.sellStep (Bot.buyStep
              (Bot.armStep near symbol s t).1 t).1 t).1.buy_done_4h = v := by
            rw [(Bot.sellStep_pres _ t).2.2, hmark, ← (Bot.sellStep_pres _ t).1]
            exact hv1
          have h0 := haux.2.1 hbd
          simp [hflag, h0]
      · cases hflag : (Bot.sellStep (Bot.buyStep
            (Bot.armStep near symbol s t).1 t).1 t).2
        · simpa [hflag] using haux.2.2.2.2
        · have hmark := Bot.sell_fired_marks _ t hflag
          have h0 := haux.2.2.2.1 (hmark.trans hv1)
          simp [hflag, h0]

/-- Concrete inputs for the C1 witness: a state already holding the cycle
identifier of the incoming tick, with all three dedup fields set. -/
def c1Sid : Bot.SetupId := ⟨"BTCUSDT", 2000⟩

/-- Witness state for C1. -/
def c1State : Bot.SymState := ⟨some c1Sid, some c1Sid, some c1Sid, false, some c1Sid⟩

/-- Witness tick for C1. -/
def c1Tick : Bot.Tick :=
  ⟨⟨[⟨2000, 1, 2, 1, 199/100, 1, 2999⟩], some ⟨2, 1, 2, 1, 2, 1, true⟩⟩,
   ⟨[Bot.dCandle], some ⟨1, 2, 1, 2, 2, 1, false⟩⟩,
   ⟨[Bot.dCandle], some ⟨1, 2, 1, 2, 2, 1, false⟩⟩⟩

/-- Witness for C1 at a concrete one-tick window with constant setup
identifier. -/
theorem C1_alerts_once_per_cycle_witness :
    (∀ s' ∈ Bot.traceStates (3/200) "BTCUSDT" c1State [c1Tick],
      s'.setup_id = some c1Sid) ∧
    Bot.traceCount (3/200) "BTCUSDT" Bot.AlertKind.arm c1State [c1Tick] ≤ 1 ∧
    Bot.traceCount (3/200) "BTCUSDT" Bot.AlertKind.buy c1State [c1Tick] ≤ 1 ∧
    Bot.traceCount (3/200) "BTCUSDT" Bot.AlertKind.sell c1State [c1Tick] ≤ 1 := by
  have hstep : Bot.handle_signals (3/200) "BTCUSDT" c1State c1Tick = (c1State, []) := by
    norm_num [Bot.handle_signals, Bot.armStep, Bot.buyStep, Bot.sellStep,
      Bot.bullish_1d_near, Bot.dCandle, c1State, c1Tick, c1Sid]
  have hT : ∀ s' ∈ Bot.traceStates (3/200) "BTCUSDT" c1State [c1Tick],
      s'.setup_id = some c1Sid := by
    intro s' h'
    rw [Bot.traceStates_cons, hstep] at h'
    simp at h'
    rcases h' with h' | h'
    · subst h'
      rfl
    · simp [Bot.traceStates] at h'
  exact ⟨hT, C1_alerts_once_per_cycle (3/200) "BTCUSDT" c1State [c1Tick] (some c1Sid) hT⟩

namespace Muboh

/-- Characters appearing in the five verdict tokens. -/
def allTokChars : List Char := ['M', 'U', 'B', 'O', 'H', 'N', 'A', 'R', 'S', 'K']

theorem caseEq_ws (c d : Char) (hc : c ∈ allTokChars) (hd : d.isWhitespace = true) :
    caseEq c d = false := by
  simp [Char.isWhitespace] at hd
  fin_cases hc <;> rcases hd with ((hd | hd) | hd) | hd <;> subst hd <;> decide

theorem wordChar_ws (d : Char) (hd : d.isWhitespace = true) : isWordChar d = false := by
  simp [Char.isWhitespace] at hd
  rcases hd with ((hd | hd) | hd) | hd <;> subst hd <;> decide

theorem searchFrom_boundary (tok : List Char) (p q : Option Char)
    (h : boundaryB p = boundaryB q) :
    ∀ s, searchFrom tok p s = searchFrom tok q s := by
  intro s
  cases s <;> simp [searchFrom, h]

theorem searchFrom_ws_left (tok : List Char) (htok : tok ≠ [])
    (hmis : ∀ c ∈ tok, ∀ d, d.isWhitespace = true → caseEq c d = false) :
    ∀ w s : List Char, (∀ d ∈ w, d.isWhitespace = true) →
      ∀ p, boundaryB p = true → searchFrom tok p (w ++ s) = searchFrom tok none s := by
  obtain ⟨c, tok', rfl⟩ := List.exists_cons_of_ne_nil htok
  intro w
  induction w with
  | nil =>
    intro s hw p hp
    exact searchFrom_boundary _ p none (by rw [hp]; rfl) s
  | cons d w ihw =>
    intro s hw p hp
    have hd := hw d (List.mem_cons_self _ _)
    have hceq : caseEq c d = false := hmis c (List.mem_cons_self _ _) d hd
    have hwd : isWordChar d = false := wordChar_ws d hd
    rw [List.cons_append]
    show ((boundaryB p && isPrefixCI (c :: tok') (d :: (w ++ s))
        && afterB (c :: tok') (d :: (w ++ s))) || searchFrom (c :: tok') (some d) (w ++ s))
      = searchFrom (c :: tok') none s
    rw [show isPrefixCI (c :: tok') (d :: (w ++ s)) = false by simp [isPrefixCI, hceq]]
    simp only [Bool.and_false, Bool.false_and, Bool.false_or]
    exact ihw s (fun d' hd' => hw d' (List.mem_cons_of_mem _ hd')) (some d)
      (by simp [boundaryB, hwd])

theorem searchFrom_all_ws (c : Char) (tok' : List Char) :
    ∀ w : List Char, (∀ d ∈ w, caseEq c d = false) →
      ∀ p, searchFrom (c :: tok') p w = false := by
  intro w
  induction w with
  | nil =>
    intro h p
    simp [searchFrom, isPrefixCI]
  | cons d w ihw =>
    intro h p
    show ((boundaryB p && isPrefixCI (c :: tok') (d :: w)
        && afterB (c :: tok') (d :: w)) || searchFrom (c :: tok') (some d) w) = false
    rw [show isPrefixCI (c :: tok') (d :: w) = false by
      simp [isPrefixCI, h d (List.mem_cons_self _ _)]]
    simp only [Bool.and_false, Bool.false_and, Bool.false_or]
    exact ihw (fun d' hd' => h d' (List.mem_cons_of_mem _ hd')) (some d)

theorem isPrefixCI_length {tok s : List Char} (h : isPrefixCI tok s = true) :
    tok.length ≤ s.length := by
  induction tok generalizing s with
  | nil => simp
  | cons c tok ih =>
    cases s with
    | nil => simp [isPrefixCI] at h
    | cons b s =>
      simp only [isPrefixCI, Bool.and_eq_true] at h
      have := ih h.2
      simp only [List.length_cons]
      omega

theorem isPrefixCI_append_ws :
    ∀ tok s w : List Char, (∀ c ∈ tok, ∀ d ∈ w, caseEq c d = false) →
      isPrefixCI tok (s ++ w) = isPrefixCI tok s := by
  intro tok
  induction tok with
  | nil => intro s w h; rfl
  | cons c tok ih =>
    intro s w hmis
    cases s with
    | nil =>
      cases w with
      | nil => rfl
      | cons d w =>
        simp [isPrefixCI, hmis c (List.mem_cons_self _ _) d (List.mem_cons_self _ _)]
    | cons b s =>
      show (caseEq c b && isPrefixCI tok (s ++ w)) = (caseEq c b && isPrefixCI tok s)
      rw [ih s w (fun c' hc' d hd => hmis c' (List.mem_cons_of_mem _ hc') d hd)]

theorem afterB_append_ws (tok x w : List Char) (hlen : tok.length ≤ x.length)
    (hw : ∀ d ∈ w, d.isWhitespace = true) :
    afterB tok (x ++ w) = afterB tok x := by
  unfold afterB
  rw [List.drop_append_of_le_length hlen]
  cases hdrop : x.drop tok.length with
  | nil =>
    cases w with
    | nil => rfl
    | cons d w' =>
      simp [boundaryB, wordChar_ws d (hw d (List.mem_cons_self _ _))]
  | cons y ys => rfl

theorem searchFrom_ws_suffix (tok : List Char) (htok : tok ≠ []) :
    ∀ s w : List Char, (∀ c ∈ tok, ∀ d ∈ w, caseEq c d = false) →
      (∀ d ∈ w, d.isWhitespace = true) →
      ∀ p, searchFrom tok p (s ++ w) = searchFrom tok p s := by
  intro s
  induction s with
  | nil =>
    intro w hmis hw p
    obtain ⟨c, tok', rfl⟩ := List.exists_cons_of_ne_nil htok
    rw [show searchFrom (c :: tok') p [] = false by simp [searchFrom, isPrefixCI]]
    exact searchFrom_all_ws c tok' w
      (fun d hd => hmis c (List.mem_cons_self _ _) d hd) p
  | cons b s ihs =>
    intro w hmis hw p
    have hrec := ihs w hmis hw (some b)
    show ((boundaryB p && isPrefixCI tok (b :: (s ++ w)) && afterB tok (b :: (s ++ w)))
        || searchFrom tok (some b) (s ++ w))
      = ((boundaryB p && isPrefixCI tok (b :: s) && afterB tok (b :: s))
        || searchFrom tok (some b) s)
    rw [hrec]
    have hpre : isPrefixCI tok (b :: (s ++ w)) = isPrefixCI tok (b :: s) := by
      have h := isPrefixCI_append_ws tok (b :: s) w hmis
      simpa using h
    rw [hpre]
    cases hp : isPrefixCI tok (b :: s) with
    | false => simp
    | true =>
      have hlen := isPrefixCI_length hp
      have hafter : afterB tok (b :: (s ++ w)) = afterB tok (b :: s) := by
        have h := afterB_append_ws tok (b :: s) w hlen hw
        simpa using h
      rw [hafter]

theorem hasTokenCI_strip (tok : List Char) (htok : tok ≠ [])
    (hmisW : ∀ c ∈ tok, ∀ d, d.isWhitespace = true → caseEq c d = false)
    (text : List Char) :
    hasTokenCI tok (pyStrip text) = hasTokenCI tok text := by
  unfold hasTokenCI
  have hsplit1 : text = text.takeWhile Char.isWhitespace
      ++ text.dropWhile Char.isWhitespace := (List.takeWhile_append_dropWhile _ _).symm
  have hw1 : ∀ d ∈ text.takeWhile Char.isWhitespace, d.isWhitespace = true :=
    fun d hd => List.mem_takeWhile_imp hd
  have hm := text.dropWhile Char.isWhitespace
  have hsplit2 : text.dropWhile Char.isWhitespace =
      pyStrip text
        ++ ((text.dropWhile Char.isWhitespace).reverse.takeWhile Char.isWhitespace).reverse := by
    unfold pyStrip
    conv =>
      lhs
      rw [← List.reverse_reverse (text.dropWhile Char.isWhitespace)]
    rw [← List.reverse_append]
    rw [List.takeWhile_append_dropWhile]
  have hw2 : ∀ d ∈ ((text.dropWhile Char.isWhitespace).reverse.takeWhile
      Char.isWhitespace).reverse, d.isWhitespace = true := by
    intro d hd
    rw [List.mem_reverse] at hd
    exact List.mem_takeWhile_imp hd
  have hmis2 : ∀ c ∈ tok, ∀ d ∈ ((text.dropWhile Char.isWhitespace).reverse.takeWhile
      Char.isWhitespace).reverse, caseEq c d = false :=
    fun c hc d hd => hmisW c hc d (hw2 d hd)
  calc searchFrom tok none (pyStrip text)
      = searchFrom tok none (pyStrip text
          ++ ((text.dropWhile Char.isWhitespace).reverse.takeWhile
              Char.isWhitespace).reverse) :=
        (searchFrom_ws_suffix tok htok (pyStrip text) _ hmis2 hw2 none).symm
    _ = searchFrom tok none (text.dropWhile Char.isWhitespace) := by rw [← hsplit2]
    _ = searchFrom tok none (text.takeWhile Char.isWhitespace
          ++ text.dropWhile Char.isWhitespace) :=
        (searchFrom_ws_left tok htok hmisW _ _ hw1 none rfl).symm
    _ = searchFrom tok none text := by rw [← hsplit1]

theorem hasTokenCI_strip_tok (tok : List Char) (htok : tok ≠ [])
    (hsub : ∀ c ∈ tok, c ∈ allTokChars) (text : List Char) :
    hasTokenCI tok (pyStrip text) = hasTokenCI tok text :=
  hasTokenCI_strip tok htok (fun c hc d hd => caseEq_ws c d (hsub c hc) hd) text

theorem mubohSearch_strip (text : List Char) :
    mubohSearch (pyStrip text) = mubohSearch text :=
  hasTokenCI_strip_tok mubohTok (by decide) (by decide) text

theorem nomubohSearch_strip (text : List Char) :
    nomubohSearch (pyStrip text) = nomubohSearch text := by
  simp only [nomubohSearch, nomubohToks, List.any_cons, List.any_nil]
  rw [hasTokenCI_strip_tok ['N', 'O', 'M', 'U', 'B', 'O', 'H'] (by decide) (by decide),
    hasTokenCI_strip_tok ['H', 'A', 'R', 'O', 'M'] (by decide) (by decide),
    hasTokenCI_strip_tok ['S', 'H', 'U', 'B', 'H', 'A'] (by decide) (by decide),
    hasTokenCI_strip_tok ['M', 'A', 'S', 'H', 'K', 'U', 'K'] (by decide) (by decide)]

end Muboh

/-- C9: extract_hukm_from_text returns NOMUBOH exactly when the text
contains one of the word-bounded case-insensitive tokens NOMUBOH, HAROM,
SHUBHA or MASHKUK (even when MUBOH also occurs), MUBOH exactly when MUBOH
occurs as a whole word and no negative token occurs, and UNKNOWN
otherwise; the empty text yields UNKNOWN with empty detail. -/
theorem C9_hukm_extraction :
    ∀ text : List Char,
      ((Muboh.extract_hukm_from_text text).1 = "NOMUBOH" ↔
        Muboh.nomubohSearch text = true) ∧
      ((Muboh.extract_hukm_from_text text).1 = "MUBOH" ↔
        (Muboh.mubohSearch text = true ∧ Muboh.nomubohSearch text = false)) ∧
      ((Muboh.extract_hukm_from_text text).1 = "UNKNOWN" ↔
        (Muboh.mubohSearch text = false ∧ Muboh.nomubohSearch text = false)) ∧
      Muboh.extract_hukm_from_text [] = ("UNKNOWN", []) := by
  intro text
  by_cases htext : text = []
  · subst htext
    decide
  · have hb1 := Muboh.nomubohSearch_strip text
    have hb2 := Muboh.mubohSearch_strip text
    have hval : (Muboh.extract_hukm_from_text text).1 =
        (if Muboh.nomubohSearch (Muboh.pyStrip text) then "NOMUBOH"
         else if Muboh.mubohSearch (Muboh.pyStrip text) then "MUBOH" else "UNKNOWN") := by
      unfold Muboh.extract_hukm_from_text
      rw [if_neg htext]
      dsimp only
      cases hn : Muboh.nomubohSearch (Muboh.pyStrip text) <;>
        cases hm : Muboh.mubohSearch (Muboh.pyStrip text) <;> simp [hn, hm]
    refine ⟨?_, ?_, ?_, by decide⟩ <;> simp only [hval, ← hb1, ← hb2] <;>
      cases hn : Muboh.nomubohSearch (Muboh.pyStrip text) <;>
      cases hm : Muboh.mubohSearch (Muboh.pyStrip text) <;> simp [hn, hm]

namespace Bot

theorem insertDesc_perm {α : Type} (key : α → ℚ) (x : α) (l : List α) :
    (insertDesc key x l).Perm (x :: l) := by
  induction l with
  | nil => exact List.Perm.refl _
  | cons y ys ih =>
    unfold insertDesc
    split
    · exact (ih.cons y).trans (List.Perm.swap x y ys)
    · exact List.Perm.refl _

theorem sortDesc_perm_aux {α : Type} (key : α → ℚ) :
    ∀ l acc : List α,
      (l.foldl (fun a x => insertDesc key x a) acc).Perm (acc ++ l) := by
  intro l
  induction l with
  | nil => intro acc; simp
  | cons x xs ih =>
    intro acc
    have h1 := ih (insertDesc key x acc)
    have h2 : (insertDesc key x acc ++ xs).Perm (acc ++ x :: xs) :=
      ((insertDesc_perm key x acc).append_right xs).trans List.perm_middle.symm
    rw [List.foldl_cons]
    exact h1.trans h2

theorem sortDesc_perm {α : Type} (key : α → ℚ) (l : List α) :
    (sortDesc key l).Perm l := by
  have h := sortDesc_perm_aux key l []
  simpa [sortDesc] using h

theorem insertDesc_sorted (x : Nat × String × ℚ) :
    ∀ l : List (Nat × String × ℚ), l.Sorted specLT → (∀ y ∈ l, y.1 < x.1) →
      (insertDesc (fun t => t.2.2) x l).Sorted specLT := by
  intro l
  induction l with
  | nil =>
    intro _ _
    simp [insertDesc]
  | cons y ys ih =>
    intro hs hidx
    rw [List.sorted_cons] at hs
    unfold insertDesc
    split
    · next hle =>
      rw [List.sorted_cons]
      refine ⟨?_, ih hs.2 (fun z hz => hidx z (List.mem_cons_of_mem _ hz))⟩
      intro z hz
      rcases List.mem_cons.mp ((insertDesc_perm _ x ys).mem_iff.mp hz) with rfl | hz'
      · rcases lt_or_eq_of_le hle with hlt | heq
        · exact Or.inl hlt
        · exact Or.inr ⟨heq.symm, hidx y (List.mem_cons_self _ _)⟩
      · exact hs.1 z hz'
    · next hgt =>
      have hylt : y.2.2 < x.2.2 := lt_of_not_le hgt
      rw [List.sorted_cons]
      refine ⟨?_, List.sorted_cons.mpr hs⟩
      intro z hz
      rcases List.mem_cons.mp hz with rfl | hz'
      · exact Or.inl hylt
      · rcases hs.1 z hz' with h | ⟨heq, -⟩
        · exact Or.inl (h.trans hylt)
        · exact Or.inl (heq ▸ hylt)

theorem sortDesc_sorted_aux :
    ∀ l acc : List (Nat × String × ℚ), acc.Sorted specLT →
      (∀ x ∈ l, ∀ y ∈ acc, y.1 < x.1) →
      l.Pairwise (fun a b => a.1 < b.1) →
      (l.foldl (fun a x => insertDesc (fun t => t.2.2) x a) acc).Sorted specLT := by
  intro l
  induction l with
  | nil =>
    intro acc hs _ _
    exact hs
  | cons x xs ih =>
    intro acc hs hidx hpw
    rw [List.pairwise_cons] at hpw
    rw [List.foldl_cons]
    apply ih
    · exact insertDesc_sorted x acc hs
        (fun y hy => hidx x (List.mem_cons_self _ _) y hy)
    · intro z hz y hy
      rcases List.mem_cons.mp ((insertDesc_perm _ x acc).mem_iff.mp hy) with rfl | hy'
      · exact hpw.1 z hz
      · exact hidx z (List.mem_cons_of_mem _ hz) y hy'
    · exact hpw.2

theorem le_fst_of_mem_enumFrom {α : Type} :
    ∀ {l : List α} {k : Nat} {a : Nat × α}, a ∈ List.enumFrom k l → k ≤ a.1 := by
  intro l
  induction l with
  | nil => intro k a ha; simp at ha
  | cons x xs ih =>
    intro k a ha
    rw [List.enumFrom_cons] at ha
    rcases List.mem_cons.mp ha with rfl | ha'
    · exact Nat.le_refl _
    · exact Nat.le_of_succ_le (ih ha')

theorem enumFrom_pairwise {α : Type} :
    ∀ (l : List α) (k : Nat),
      (List.enumFrom k l).Pairwise (fun a b => a.1 < b.1) := by
  intro l
  induction l with
  | nil => intro k; simp
  | cons x xs ih =>
    intro k
    rw [List.enumFrom_cons, List.pairwise_cons]
    refine ⟨?_, ih (k + 1)⟩
    intro a ha
    exact Nat.lt_of_lt_of_le (Nat.lt_succ_self k) (le_fst_of_mem_enumFrom ha)

theorem eligIndexed_pairwise (data : List Ticker) :
    (eligIndexed data).Pairwise (fun a b => a.1 < b.1) := by
  unfold eligIndexed
  rw [List.pairwise_filterMap]
  apply List.Pairwise.imp ?_ (enumFrom_pairwise data 0)
  intro a b hab
  intro x hx y hy
  rcases Option.map_eq_some'.mp hx with ⟨p, -, rfl⟩
  rcases Option.map_eq_some'.mp hy with ⟨q, -, rfl⟩
  exact hab

theorem insertDesc_map (x : Nat × String × ℚ) :
    ∀ l : List (Nat × String × ℚ),
      (insertDesc (fun t => t.2.2) x l).map (fun t => t.2)
        = insertDesc (fun t => t.2) x.2 (l.map fun t => t.2) := by
  intro l
  induction l with
  | nil => rfl
  | cons y ys ih =>
    simp only [insertDesc, List.map_cons]
    by_cases h : x.2.2 ≤ y.2.2
    · rw [if_pos h, if_pos h, List.map_cons, ih]
    · rw [if_neg h, if_neg h, List.map_cons, List.map_cons]

theorem sortDesc_map_aux :
    ∀ l acc : List (Nat × String × ℚ),
      (l.foldl (fun a x => insertDesc (fun t => t.2.2) x a) acc).map (fun t => t.2)
        = (l.map fun t => t.2).foldl
            (fun a x => insertDesc (fun t => t.2) x a) (acc.map fun t => t.2) := by
  intro l
  induction l with
  | nil => intro acc; rfl
  | cons x xs ih =>
    intro acc
    rw [List.foldl_cons, List.map_cons, List.foldl_cons, ih, insertDesc_map]

theorem sortDesc_map_erase (l : List (Nat × String × ℚ)) :
    (sortDesc (fun t => t.2.2) l).map (fun t => t.2)
      = sortDesc (fun t => t.2) (l.map fun t => t.2) :=
  sortDesc_map_aux l []

theorem eligIndexed_map (data : List Ticker) :
    (eligIndexed data).map (fun t => t.2)
      = data.filterMap fun x => (tickerPct x).map fun p => (x.symbol, p) := by
  unfold eligIndexed List.enum
  suffices h : ∀ k, ((List.enumFrom k data).filterMap fun p =>
      (tickerPct p.2).map fun q => (p.1, p.2.symbol, q)).map (fun t => t.2)
      = data.filterMap fun x => (tickerPct x).map fun p => (x.symbol, p) from h 0
  intro k
  induction data generalizing k with
  | nil => rfl
  | cons x xs ih =>
    rw [List.enumFrom_cons, List.filterMap_cons, List.filterMap_cons]
    cases htp : tickerPct x with
    | none =>
      simp only [Option.map_none']
      exact ih (k + 1)
    | some p =>
      simp only [Option.map_some', List.map_cons]
      rw [ih (k + 1)]

end Bot

/-- C6: get_top_gainers returns the first top_n symbols of the unique
ordering of the eligible entries by strictly descending percentage change
with ties broken by original ticker-list position; eligibility excludes
non-USDT quotes, leveraged-token pairs, the stable-stable suffixes and
entries whose percentage field does not parse. -/
theorem C6_top_gainers_order :
    ∀ (data : List Bot.Ticker) (top_n : Nat),
      ∃ srt : List (Nat × String × ℚ),
        srt.Perm (Bot.eligIndexed data) ∧
        srt.Pairwise Bot.specLT ∧
        Bot.get_top_gainers data top_n = (srt.take top_n).map (fun t => t.2.1) := by
  intro data n
  refine ⟨Bot.sortDesc (fun t => t.2.2) (Bot.eligIndexed data), ?_, ?_, ?_⟩
  · exact Bot.sortDesc_perm _ _
  · exact Bot.sortDesc_sorted_aux (Bot.eligIndexed data) [] (by simp) (by simp)
      (Bot.eligIndexed_pairwise data)
  · simp only [Bot.get_top_gainers]
    rw [(Bot.eligIndexed_map data).symm, ← Bot.sortDesc_map_erase,
      ← List.map_take, List.map_map]
    rfl

namespace Muboh

theorem lookupA_insertA {β : Type} (m : List (List Char × β)) (k : List Char) (v : β) :
    lookupA (insertA m k v) k = some v := by
  simp [lookupA, insertA, List.find?]

theorem dropWhile_idem (p : Char → Bool) :
    ∀ l : List Char, (l.dropWhile p).dropWhile p = l.dropWhile p := by
  intro l
  induction l with
  | nil => rfl
  | cons x xs ih =>
    rw [List.dropWhile_cons]
    split
    · exact ih
    · next h =>
      rw [List.dropWhile_cons, if_neg h]

theorem dropWhile_head_false (p : Char → Bool) :
    ∀ (l : List Char) (c : Char) (rest : List Char),
      l.dropWhile p = c :: rest → p c = false := by
  intro l
  induction l with
  | nil =>
    intro c rest h
    simp at h
  | cons x xs ih =>
    intro c rest h
    rw [List.dropWhile_cons] at h
    split at h
    · exact ih c rest h
    · next hneg =>
      injection h with h1 h2
      subst h1
      exact Bool.not_eq_true _ |>.mp hneg

theorem dropWhile_concat_neg (p : Char → Bool) (c : Char) (hc : p c = false) :
    ∀ u : List Char, ∃ v, (u ++ [c]).dropWhile p = v ++ [c] := by
  intro u
  induction u with
  | nil =>
    refine ⟨[], ?_⟩
    rw [List.nil_append, List.dropWhile_cons, if_neg (by simp [hc])]
  | cons a u ih =>
    by_cases h : p a = true
    · rw [List.cons_append, List.dropWhile_cons, if_pos h]
      exact ih
    · exact ⟨a :: u, by rw [List.cons_append, List.dropWhile_cons, if_neg h]⟩

theorem pyStrip_dropWhile (l : List Char) :
    (pyStrip l).dropWhile Char.isWhitespace = pyStrip l := by
  cases hm : l.dropWhile Char.isWhitespace with
  | nil =>
    unfold pyStrip
    rw [hm]
    rfl
  | cons c rest =>
    have hc : Char.isWhitespace c = false := dropWhile_head_false _ l c rest hm
    obtain ⟨v, hv⟩ := dropWhile_concat_neg Char.isWhitespace c hc rest.reverse
    unfold pyStrip
    rw [hm, List.reverse_cons, hv, List.reverse_append]
    rw [show ([c] : List Char).reverse ++ v.reverse = c :: v.reverse from rfl]
    rw [List.dropWhile_cons, if_neg (by simp [hc])]

theorem pyStrip_idem (l : List Char) : pyStrip (pyStrip l) = pyStrip l := by
  show (((pyStrip l).dropWhile Char.isWhitespace).reverse.dropWhile
      Char.isWhitespace).reverse = pyStrip l
  rw [pyStrip_dropWhile]
  show ((((l.dropWhile Char.isWhitespace).reverse.dropWhile
      Char.isWhitespace).reverse).reverse.dropWhile Char.isWhitespace).reverse
      = pyStrip l
  rw [List.reverse_reverse, dropWhile_idem]
  rfl

theorem extract_first_ticker_strip (text : List Char) :
    extract_first_ticker (pyStrip text) = extract_first_ticker text := by
  by_cases h : text = []
  · subst h
    rfl
  · by_cases h2 : pyStrip text = []
    · rw [h2]
      unfold extract_first_ticker
      rw [if_neg h, h2]
      rfl
    · unfold extract_first_ticker
      rw [if_neg h2, if_neg h, pyStrip_idem]

end Muboh

namespace Muboh

theorem on_group_message_reply_inv
    (cooldown : ℚ) (trust : List (List Char)) (db : Db) (text source : List Char)
    (now : ℚ) (db1 : Db) (rep : Reply)
    (h : on_group_message cooldown trust db text source now = (db1, some rep)) :
    ∃ tk rec,
      extract_first_ticker (pyStrip text) = some tk ∧
      db_get_record db tk = some rec ∧
      cooldown_ok cooldown db tk now = true ∧
      db1 = mark_replied db tk now ∧
      rep = ⟨tk, replyVerdict rec.hukm⟩ := by
  unfold on_group_message at h
  split at h
  · simp at h
  · dsimp only at h
    split at h
    · next r heq =>
      subst h
      split at heq
      · split at heq
        · simp at heq
        · split at heq
          · split at heq
            · simp at heq
            · simp at heq
          · simp at heq
      · simp at heq
    · split at h
      · simp at h
      · next tk htk =>
        split at h
        · simp at h
        · next rec hrec =>
          split at h
          · next hcd =>
            have h1 : mark_replied db tk now = db1 := congrArg Prod.fst h
            have h2 : some (⟨tk, replyVerdict rec.hukm⟩ : Reply) = some rep :=
              congrArg Prod.snd h
            refine ⟨tk, rec, htk, hrec, hcd, h1.symm, ?_⟩
            injection h2 with h2
            exact h2.symm
          · simp at h

end Muboh

namespace Muboh

theorem on_group_message_no_reply
    (cooldown : ℚ) (trust : List (List Char)) (db' : Db) (text2 source2 : List Char)
    (now2 : ℚ)
    (hcd : ∀ tk2, extract_first_ticker (pyStrip text2) = some tk2 →
      cooldown_ok cooldown db' tk2 now2 = false) :
    (on_group_message cooldown trust db' text2 source2 now2).2 = none ∧
    (on_group_message cooldown trust db' text2 source2 now2).1.last_reply_ts
      = db'.last_reply_ts := by
  unfold on_group_message
  split
  · exact ⟨rfl, rfl⟩
  · dsimp only
    split
    · next r heq =>
      split at heq
      · split at heq
        · injection heq with heq
          subst heq
          exact ⟨rfl, rfl⟩
        · split at heq
          · split at heq
            · injection heq with heq
              subst heq
              exact ⟨rfl, rfl⟩
            · simp at heq
          · simp at heq
      · simp at heq
    · split
      · exact ⟨rfl, rfl⟩
      · next tk2 htk2 =>
        split
        · exact ⟨rfl, rfl⟩
        · next rec2 hrec2 =>
          split
          · next hcdt =>
            rw [hcd tk2 htk2] at hcdt
            simp at hcdt
          · exact ⟨rfl, rfl⟩

end Muboh

/-- C10: a group reply about a ticker records the reply time under the
uppercased ticker, and any later handler call that looks up the same
ticker within COOLDOWN_SECONDS of that time produces no group reply and
leaves the stored last-reply times unchanged. -/
theorem C10_cooldown_suppresses_reply :
    ∀ (cooldown : ℚ) (trust : List (List Char)) (db : Muboh.Db)
      (text source : List Char) (now : ℚ) (db1 : Muboh.Db) (rep : Muboh.Reply),
      Muboh.on_group_message cooldown trust db text source now = (db1, some rep) →
      Muboh.lookupA db1.last_reply_ts (Muboh.upperL rep.ticker) = some now ∧
      ∀ (text2 source2 : List Char) (now2 : ℚ),
        Muboh.extract_first_ticker text2 = some rep.ticker →
        now2 - now < cooldown →
        (Muboh.on_group_message cooldown trust db1 text2 source2 now2).2 = none ∧
        (Muboh.on_group_message cooldown trust db1 text2 source2 now2).1.last_reply_ts
          = db1.last_reply_ts := by
  intro cooldown trust db text source now db1 rep h
  obtain ⟨tk, rec, htk, hrec, hcd, hdb1, hrep⟩ :=
    Muboh.on_group_message_reply_inv cooldown trust db text source now db1 rep h
  subst hdb1
  subst hrep
  have hlook : Muboh.lookupA (Muboh.mark_replied db tk now).last_reply_ts
      (Muboh.upperL tk) = some now := Muboh.lookupA_insertA _ _ _
  refine ⟨hlook, ?_⟩
  intro text2 source2 now2 h2 h3
  apply Muboh.on_group_message_no_reply
  intro tk2 htk2
  rw [Muboh.extract_first_ticker_strip, h2] at htk2
  injection htk2 with htk2
  subst htk2
  unfold Muboh.cooldown_ok
  rw [hlook]
  simp only [Option.getD_some]
  exact decide_eq_false (not_le.mpr h3)

/-- Concrete verdict record for the C10 witness. -/
def c10Rec : Muboh.HukmRecord := ⟨['B', 'T', 'C'], "MUBOH", [], [], 0⟩

/-- Witness database before the reply. -/
def c10Db : Muboh.Db := ⟨[(['B', 'T', 'C'], c10Rec)], []⟩

/-- Witness database after the reply. -/
def c10Db1 : Muboh.Db := ⟨[(['B', 'T', 'C'], c10Rec)], [(['B', 'T', 'C'], 100)]⟩

/-- Witness reply. -/
def c10Rep : Muboh.Reply := ⟨['B', 'T', 'C'], "MUBOH"⟩

/-- Witness for C10: a lower-case lookup of BTC replies and records time
100, and an upper-case lookup 30 seconds later is suppressed. -/
theorem C10_cooldown_suppresses_reply_witness :
    Muboh.on_group_message 60 [] c10Db ['b', 't', 'c'] [] 100 = (c10Db1, some c10Rep) ∧
    Muboh.extract_first_ticker ['B', 'T', 'C'] = some c10Rep.ticker ∧
    (130 : ℚ) - 100 < 60 ∧
    Muboh.lookupA c10Db1.last_reply_ts (Muboh.upperL c10Rep.ticker) = some 100 ∧
    (Muboh.on_group_message 60 [] c10Db1 ['B', 'T', 'C'] [] 130).2 = none ∧
    (Muboh.on_group_message 60 [] c10Db1 ['B', 'T', 'C'] [] 130).1.last_reply_ts
      = c10Db1.last_reply_ts := by
  have h1 : Muboh.on_group_message 60 [] c10Db ['b', 't', 'c'] [] 100
      = (c10Db1, some c10Rep) := by
    with_unfolding_all decide
  have h2 : Muboh.extract_first_ticker ['B', 'T', 'C'] = some c10Rep.ticker := by
    with_unfolding_all decide
  have h3 : (130 : ℚ) - 100 < 60 := by with_unfolding_all decide
  have hmain := C10_cooldown_suppresses_reply 60 [] c10Db ['b', 't', 'c'] [] 100
    c10Db1 c10Rep h1
  exact ⟨h1, h2, h3, hmain.1, (hmain.2 ['B', 'T', 'C'] [] 130 h2 h3).1,
    (hmain.2 ['B', 'T', 'C'] [] 130 h2 h3).2⟩
